import Mathlib

/-!
# Verification of the Legal-AI crawl/parse/chunk core

A shallow embedding, in Lean 4, of the design-bearing parts of the
Legal-AI batch pipeline:

* `src/batch/scrapers/base.py` — `ScrapedItem`, `ScraperState`, and the
  `BaseScraper.run` iteration loop (modelled as a pure fold over the
  discovery sequence, with the per-URL scrape outcome supplied as a
  function);
* `src/batch/scrapers/utils/rate_limiter.py` — `AdaptiveRateLimiter`
  (delays modelled as exact rationals; every operation the claims touch
  is exact in binary floating point as well, so the observable results
  coincide);
* `src/batch/pipeline/chunking.py` — paragraph splitting, grouping into
  character-budget chunks, and the two chunkers;
* `src/batch/scrapers/utils/citation_parser.py` — the four citation
  regex families and the first-seen deduplication loops;
* `src/batch/scrapers/judiciary/parsers.py` — the language-detection
  fragment of `parse_judgment_html`.

Regular expressions are embedded as executable matchers on `List Char`
with the exact backtracking behaviour of the Python patterns (including
their quirks).  The Python `\s` class and `str.strip()` are modelled by
the ASCII whitespace characters; all inputs considered here are ASCII.
-/

namespace LegalAI

/-! ## `base.py`: `ScrapedItem` -/

/-- One fetched+parsed unit (`ScrapedItem` in `base.py`).  The
`scraped_at` timestamp is wall-clock metadata with no behaviour attached
and is omitted.  Subclass payload fields (case numbers, etc.) do not
affect validity or the run loop and are likewise omitted. -/
structure ScrapedItem where
  source_url : String
  raw_html : Option String := none
  error : Option String := none
  deriving Repr, DecidableEq

/-- `ScrapedItem.is_valid`: `self.raw_html is not None and self.error is None`. -/
def ScrapedItem.is_valid (it : ScrapedItem) : Bool :=
  it.raw_html.isSome && it.error.isNone

/-! ## `base.py`: `ScraperState` and the run loop -/

/-- The `stats` counter dictionary of `ScraperState` (its four fixed keys). -/
structure Stats where
  total_processed : Nat := 0
  successful : Nat := 0
  failed : Nat := 0
  skipped : Nat := 0
  deriving Repr, DecidableEq

/-- Persistent crawl state (`ScraperState` in `base.py`).  The Python
`set[str]` is modelled as a duplicate-free list (insertion only adds
absent elements, mirroring `set.add`); `failed_urls : dict[str, str]`
is modelled as an association list updated in place. -/
structure ScraperState where
  scraper_name : String
  last_successful_url : Option String := none
  processed_urls : List String := []
  failed_urls : List (String × String) := []
  stats : Stats := {}
  deriving Repr, DecidableEq

/-- `set.add`: insert a URL if it is not already present. -/
def insertUrl (url : String) (urls : List String) : List String :=
  if url ∈ urls then urls else url :: urls

/-- `dict.__setitem__` on an association list. -/
def setAssoc (k v : String) : List (String × String) → List (String × String)
  | [] => [(k, v)]
  | (k₀, v₀) :: rest =>
      if k₀ = k then (k, v) :: rest else (k₀, v₀) :: setAssoc k v rest

/-- `BaseScraper.is_url_processed` (the state is always loaded inside `run`). -/
def ScraperState.is_url_processed (s : ScraperState) (url : String) : Bool :=
  url ∈ s.processed_urls

/-- `BaseScraper.mark_url_processed`.  Note the Python guard `if error:`
is a truthiness test: a `None` error and an empty-string error both skip
the `failed_urls` update. -/
def ScraperState.mark_url_processed (s : ScraperState) (url : String)
    (success : Bool) (error : Option String) : ScraperState :=
  let s := { s with
    processed_urls := insertUrl url s.processed_urls
    stats := { s.stats with total_processed := s.stats.total_processed + 1 } }
  if success then
    { s with
      stats := { s.stats with successful := s.stats.successful + 1 }
      last_successful_url := some url }
  else
    { s with
      stats := { s.stats with failed := s.stats.failed + 1 }
      failed_urls :=
        match error with
        | some e => if e = "" then s.failed_urls else setAssoc url e s.failed_urls
        | none => s.failed_urls }

/-- `BaseScraper.mark_url_skipped`. -/
def ScraperState.mark_url_skipped (s : ScraperState) : ScraperState :=
  { s with stats := { s.stats with skipped := s.stats.skipped + 1 } }

/-- The three ways `await self.scrape_item(url)` can resolve inside
`BaseScraper.run`: an item is returned, `None` is returned, or an
exception with message `msg` is raised. -/
inductive ScrapeOutcome where
  | item (it : ScrapedItem)
  | noItem
  | exn (msg : String)
  deriving Repr, DecidableEq

/-- The guard `if limit and count >= limit` of `BaseScraper.run`:
`limit` is first tested for truthiness, so `None` and `0` never stop the
loop. -/
def limitReached (limit : Option Nat) (count : Nat) : Bool :=
  match limit with
  | none => false
  | some l => l ≠ 0 && l ≤ count

/-- The observable result of one `BaseScraper.run` invocation: the items
yielded, the final state, and (instrumentation for the claims) the list
of URLs for which `scrape_item` was actually invoked, in order. -/
structure RunResult where
  yielded : List ScrapedItem
  state : ScraperState
  fetched : List String
  deriving Repr, DecidableEq

/-- The `async for url in self.get_index_urls()` loop of
`BaseScraper.run`, as a fold over the discovery sequence `urls` with the
per-URL scrape behaviour supplied as `scrape`.  The periodic
`_save_state` call performs I/O only and does not change the state. -/
def run (scrape : String → ScrapeOutcome) (limit : Option Nat) :
    List String → Nat → ScraperState → RunResult
  | [], _, s => ⟨[], s, []⟩
  | url :: rest, count, s =>
    if limitReached limit count then ⟨[], s, []⟩
    else if s.is_url_processed url then
      run scrape limit rest count (s.mark_url_skipped)
    else
      match scrape url with
      | .item it =>
          if it.is_valid then
            let r := run scrape limit rest (count + 1)
              (s.mark_url_processed url true none)
            ⟨it :: r.yielded, r.state, url :: r.fetched⟩
          else
            let r := run scrape limit rest count
              (s.mark_url_processed url false it.error)
            ⟨r.yielded, r.state, url :: r.fetched⟩
      | .noItem =>
          let r := run scrape limit rest count
            (s.mark_url_processed url false (some "No item returned"))
          ⟨r.yielded, r.state, url :: r.fetched⟩
      | .exn msg =>
          let r := run scrape limit rest count
            (s.mark_url_processed url false (some msg))
          ⟨r.yielded, r.state, url :: r.fetched⟩

/-! ## `rate_limiter.py`: `AdaptiveRateLimiter`

Delays are modelled as exact rationals.  For the parameter values in the
claims every floating-point operation the Python code performs is exact
(or rounds to the same comparison outcome), so the rational model and
the float code agree observably. -/

structure AdaptiveRateLimiter where
  base_delay : ℚ := 3
  min_delay : ℚ := 1
  max_delay : ℚ := 60
  backoff_factor : ℚ := 2
  recovery_factor : ℚ := 9 / 10
  current_delay : ℚ
  consecutive_successes : Nat := 0
  consecutive_failures : Nat := 0
  deriving Repr, DecidableEq

/-- `__post_init__`: the current delay starts at `base_delay`. -/
def AdaptiveRateLimiter.init (base mind maxd backoff recovery : ℚ) :
    AdaptiveRateLimiter :=
  { base_delay := base, min_delay := mind, max_delay := maxd
    backoff_factor := backoff, recovery_factor := recovery
    current_delay := base }

/-- `AdaptiveRateLimiter.report_success`. -/
def AdaptiveRateLimiter.report_success (l : AdaptiveRateLimiter) :
    AdaptiveRateLimiter :=
  let l := { l with
    consecutive_successes := l.consecutive_successes + 1
    consecutive_failures := 0 }
  if 5 ≤ l.consecutive_successes then
    let new_delay := max l.min_delay (l.current_delay * l.recovery_factor)
    let l :=
      if new_delay < l.current_delay then { l with current_delay := new_delay }
      else l
    { l with consecutive_successes := 0 }
  else l

/-- `AdaptiveRateLimiter.report_failure`. -/
def AdaptiveRateLimiter.report_failure (l : AdaptiveRateLimiter)
    (is_rate_limit : Bool) : AdaptiveRateLimiter :=
  let l := { l with
    consecutive_failures := l.consecutive_failures + 1
    consecutive_successes := 0 }
  let factor := if is_rate_limit then l.backoff_factor * 2 else l.backoff_factor
  { l with current_delay := min l.max_delay (l.current_delay * factor) }

/-! ## Helper lemmas on the run loop -/

theorem mem_insertUrl {a url : String} {l : List String} :
    a ∈ insertUrl url l ↔ a = url ∨ a ∈ l := by
  unfold insertUrl
  by_cases h : url ∈ l
  · rw [if_pos h]
    constructor
    · exact Or.inr
    · rintro (rfl | ha)
      · exact h
      · exact ha
  · rw [if_neg h]
    exact List.mem_cons

theorem nodup_insertUrl {url : String} {l : List String} (h : l.Nodup) :
    (insertUrl url l).Nodup := by
  unfold insertUrl
  by_cases hm : url ∈ l
  · rwa [if_pos hm]
  · rw [if_neg hm]
    exact List.Nodup.cons hm h

theorem processed_mark_url_processed (s : ScraperState) (url : String)
    (success : Bool) (error : Option String) :
    (s.mark_url_processed url success error).processed_urls =
      insertUrl url s.processed_urls := by
  cases success <;> rfl

theorem processed_mark_url_skipped (s : ScraperState) :
    s.mark_url_skipped.processed_urls = s.processed_urls := rfl

theorem is_url_processed_iff (s : ScraperState) (url : String) :
    s.is_url_processed url = true ↔ url ∈ s.processed_urls := by
  simp [ScraperState.is_url_processed]

theorem limitReached_zero (limit : Option Nat) :
    limitReached limit 0 = false := by
  cases limit with
  | none => rfl
  | some l => cases l <;> simp [limitReached]

/-- Core invariant of one `run` invocation: previously processed URLs stay
processed, every URL actually fetched was not processed before and is
processed afterwards, and no URL is fetched twice. -/
theorem run_invariant (scrape : String → ScrapeOutcome) (limit : Option Nat)
    (urls : List String) (count : Nat) (s : ScraperState) :
    (∀ u ∈ s.processed_urls, u ∈ (run scrape limit urls count s).state.processed_urls) ∧
    (∀ u ∈ (run scrape limit urls count s).fetched,
        u ∉ s.processed_urls ∧ u ∈ (run scrape limit urls count s).state.processed_urls) ∧
    (run scrape limit urls count s).fetched.Nodup := by
  induction urls generalizing count s with
  | nil =>
    exact ⟨fun u hu => hu, fun u hu => absurd hu (List.not_mem_nil u), List.nodup_nil⟩
  | cons url rest ih =>
    simp only [run]
    split
    next hlim =>
      exact ⟨fun u hu => hu, fun u hu => absurd hu (List.not_mem_nil u), List.nodup_nil⟩
    next hlim =>
      split
      next hb => exact ih count s.mark_url_skipped
      next hb =>
        have hproc : url ∉ s.processed_urls :=
          fun hc => hb ((is_url_processed_iff s url).mpr hc)
        -- the three scrape outcomes (and the validity split) all mark the
        -- URL processed and prepend it to the fetched list
        have step : ∀ (succ : Bool) (err : Option String) (count' : Nat),
            (∀ u ∈ s.processed_urls,
                u ∈ (run scrape limit rest count'
                    (s.mark_url_processed url succ err)).state.processed_urls) ∧
            (∀ u ∈ url :: (run scrape limit rest count'
                (s.mark_url_processed url succ err)).fetched,
              u ∉ s.processed_urls ∧
              u ∈ (run scrape limit rest count'
                  (s.mark_url_processed url succ err)).state.processed_urls) ∧
            (url :: (run scrape limit rest count'
                (s.mark_url_processed url succ err)).fetched).Nodup := by
          intro succ err count'
          obtain ⟨h1, h2, h3⟩ := ih count' (s.mark_url_processed url succ err)
          have hmarked : ∀ v ∈ s.processed_urls,
              v ∈ (s.mark_url_processed url succ err).processed_urls := by
            intro v hv
            rw [processed_mark_url_processed]
            exact mem_insertUrl.mpr (Or.inr hv)
          have hurl : url ∈ (s.mark_url_processed url succ err).processed_urls := by
            rw [processed_mark_url_processed]
            exact mem_insertUrl.mpr (Or.inl rfl)
          refine ⟨fun u hu => h1 u (hmarked u hu), ?_, ?_⟩
          · intro u hu
            rcases List.mem_cons.mp hu with rfl | hu'
            · exact ⟨hproc, h1 _ hurl⟩
            · exact ⟨fun hc => (h2 u hu').1 (hmarked u hc), (h2 u hu').2⟩
          · exact List.Nodup.cons (fun hc => (h2 url hc).1 hurl) h3
        split
        next it heq =>
          split
          next hv => exact step true none (count + 1)
          next hv => exact step false it.error count
        next heq => exact step false (some "No item returned") count
        next msg heq => exact step false (some msg) count

/-! ## Claim C7 — adaptive rate limiter convergence -/

/-- **C7.** From `base_delay = 1`, `backoff_factor = 2`, `max_delay = 10`
(and the default `min_delay = 1`, `recovery_factor = 0.9`), five
consecutive `report_failure(is_rate_limit=True)` calls drive the current
delay to exactly `10` (clamped at `max_delay`); five consecutive
`report_success()` calls then strictly decrease the delay (the fifth
multiplies by the recovery factor and resets the success counter) while
never taking it below `min_delay`. -/
theorem adaptive_limiter_convergence :
    ((fun l => l.report_failure true)^[5]
        (AdaptiveRateLimiter.init 1 1 10 2 (9 / 10))).current_delay = 10 ∧
    ((fun l => l.report_success)^[5]
        ((fun l => l.report_failure true)^[5]
          (AdaptiveRateLimiter.init 1 1 10 2 (9 / 10)))).current_delay <
      ((fun l => l.report_failure true)^[5]
        (AdaptiveRateLimiter.init 1 1 10 2 (9 / 10))).current_delay ∧
    ((fun l => l.report_success)^[5]
        ((fun l => l.report_failure true)^[5]
          (AdaptiveRateLimiter.init 1 1 10 2 (9 / 10)))).min_delay ≤
      ((fun l => l.report_success)^[5]
        ((fun l => l.report_failure true)^[5]
          (AdaptiveRateLimiter.init 1 1 10 2 (9 / 10)))).current_delay := by
  simp only [Function.iterate_succ, Function.iterate_zero, Function.comp_apply, id_eq,
    AdaptiveRateLimiter.init, AdaptiveRateLimiter.report_failure,
    AdaptiveRateLimiter.report_success]
  norm_num [min_def, max_def]

/-! ## Claim C8 — `ScrapedItem.is_valid` -/

/-- **C8 counterexample.** An item whose raw markup is the *empty string*
is judged valid by the code (`raw_html is not None` does not exclude
`""`), contradicting the claim that such an item is not valid. -/
theorem is_valid_empty_html_counterexample :
    ScrapedItem.is_valid
      { source_url := "https://example.com/empty", raw_html := some "", error := none } =
      true := rfl

/-- **C8 (amended).** `is_valid()` returns true iff the raw markup field
is set — to any string, the empty string included — and the error field
is unset.  (The claim's "non-empty" requirement does not hold: the code
only tests `raw_html is not None`.) -/
theorem is_valid_iff_html_set_and_no_error (it : ScrapedItem) :
    it.is_valid = true ↔ it.raw_html ≠ none ∧ it.error = none := by
  obtain ⟨u, rh, er⟩ := it
  cases rh <;> cases er <;> simp [ScrapedItem.is_valid]

/-! ## Claim C1 — end-to-end 50-item scenario -/

/-- The 50-URL discovery sequence of the end-to-end scenario. -/
def c1Urls : List String := (List.range 50).map (fun i => "case" ++ toString i)

/-- Per-URL scrape behaviour of the scenario: items 10 and 11 hit HTTP
500, so `fetch_page` returns no body and `JudiciaryScraper.scrape_item`
returns an item with no raw markup and error `"Failed to fetch page"`
(`scraper.py` lines 410-415); every other item fetches and parses
successfully. -/
def c1Scrape (url : String) : ScrapeOutcome :=
  if url = "case10" ∨ url = "case11" then
    .item { source_url := url, error := some "Failed to fetch page" }
  else
    .item { source_url := url, raw_html := some "<html>judgment</html>" }

/-- The scenario run: no limit, initially empty state. -/
def c1Result : RunResult :=
  run c1Scrape none c1Urls 0 { scraper_name := "JudiciaryScraper" }

/-- **C1.** The scenario run yields exactly 48 items, all valid; the
final stats record 2 failures and 50 total processed; and the processed
URL set has exactly 50 elements. -/
theorem end_to_end_scenario :
    c1Result.yielded.length = 48 ∧
    c1Result.yielded.all ScrapedItem.is_valid = true ∧
    c1Result.state.stats.failed = 2 ∧
    c1Result.state.stats.total_processed = 50 ∧
    c1Result.state.processed_urls.length = 50 ∧
    c1Result.state.processed_urls.Nodup := by
  decide

/-! ## Claim C2 — no URL is ever fetched twice -/

/-- **C2.** Across two consecutive `run` invocations sharing the crawl
state (any discovery sequences, scrape behaviours and limits): a URL
already in `processed_urls` is never fetched in either run; every URL is
fetched at most once in total; and a processed URL occurring in the
discovery sequence is skipped — the run continues on the rest of the
sequence with only the skipped counter incremented, `scrape_item` never
being invoked for it. -/
theorem run_never_refetches (scrape₁ scrape₂ : String → ScrapeOutcome)
    (limit₁ limit₂ : Option Nat) (urls₁ urls₂ : List String)
    (s : ScraperState) (u : String) :
    (u ∈ s.processed_urls →
      u ∉ (run scrape₁ limit₁ urls₁ 0 s).fetched ∧
      u ∉ (run scrape₂ limit₂ urls₂ 0 (run scrape₁ limit₁ urls₁ 0 s).state).fetched) ∧
    ((run scrape₁ limit₁ urls₁ 0 s).fetched ++
      (run scrape₂ limit₂ urls₂ 0 (run scrape₁ limit₁ urls₁ 0 s).state).fetched).count u ≤ 1 ∧
    (u ∈ s.processed_urls →
      run scrape₁ limit₁ (u :: urls₁) 0 s =
        run scrape₁ limit₁ urls₁ 0 s.mark_url_skipped) := by
  obtain ⟨h1a, h1b, h1c⟩ := run_invariant scrape₁ limit₁ urls₁ 0 s
  obtain ⟨h2a, h2b, h2c⟩ :=
    run_invariant scrape₂ limit₂ urls₂ 0 (run scrape₁ limit₁ urls₁ 0 s).state
  refine ⟨?_, ?_, ?_⟩
  · intro hu
    constructor
    · intro hcon
      exact (h1b u hcon).1 hu
    · intro hcon
      exact (h2b u hcon).1 (h1a u hu)
  · have hnd : ((run scrape₁ limit₁ urls₁ 0 s).fetched ++
        (run scrape₂ limit₂ urls₂ 0 (run scrape₁ limit₁ urls₁ 0 s).state).fetched).Nodup := by
      rw [List.nodup_append]
      refine ⟨h1c, h2c, ?_⟩
      intro v hv1 hv2
      exact (h2b v hv2).1 (h1b v hv1).2
    exact List.nodup_iff_count_le_one.mp hnd u
  · intro hu
    have hb : s.is_url_processed u = true := (is_url_processed_iff s u).mpr hu
    simp only [run, limitReached_zero, Bool.false_eq_true, if_false, hb,
      eq_self_iff_true, if_true]

/-- Witness for C2 at concrete inputs. -/
theorem run_never_refetches_witness :
    ("a" ∈ ({ scraper_name := "t", processed_urls := ["a"] } : ScraperState).processed_urls) ∧
    ("a" ∉ (run (fun u => .item { source_url := u }) none ["a", "b"] 0
        { scraper_name := "t", processed_urls := ["a"] }).fetched ∧
      "a" ∉ (run (fun u => .item { source_url := u }) none ["a"] 0
        (run (fun u => .item { source_url := u }) none ["a", "b"] 0
          { scraper_name := "t", processed_urls := ["a"] }).state).fetched) ∧
    run (fun u => .item { source_url := u }) none ("a" :: ["a", "b"]) 0
        { scraper_name := "t", processed_urls := ["a"] } =
      run (fun u => .item { source_url := u }) none ["a", "b"] 0
        ({ scraper_name := "t", processed_urls := ["a"] } : ScraperState).mark_url_skipped := by
  have h := run_never_refetches (fun u => .item { source_url := u })
    (fun u => .item { source_url := u }) none none ["a", "b"] ["a"]
    { scraper_name := "t", processed_urls := ["a"] } "a"
  exact ⟨by decide, h.1 (by decide), h.2.2 (by decide)⟩

/-! ## Claim C10 — a limit of zero is ignored -/

theorem run_limit_zero_aux (scrape : String → ScrapeOutcome)
    (urls : List String) (count : Nat) (s : ScraperState) :
    run scrape (some 0) urls count s = run scrape none urls count s := by
  induction urls generalizing count s with
  | nil => rfl
  | cons url rest ih =>
    have hz : limitReached (some 0) count = false := by simp [limitReached]
    have hn : limitReached none count = false := rfl
    simp only [run, hz, hn, Bool.false_eq_true, if_false]
    by_cases hb : s.is_url_processed url = true
    · simp only [hb, eq_self_iff_true, if_true]
      exact ih count s.mark_url_skipped
    · rw [Bool.not_eq_true] at hb
      simp only [hb, Bool.false_eq_true, if_false]
      cases scrape url with
      | item it =>
        by_cases hv : it.is_valid = true
        · simp only [hv, eq_self_iff_true, if_true, ih]
        · simp only [Bool.not_eq_true] at hv
          simp only [hv, Bool.false_eq_true, if_false, ih]
      | noItem => simp only [ih]
      | exn msg => simp only [ih]

theorem run_limit_bound_aux (scrape : String → ScrapeOutcome) (l : Nat)
    (urls : List String) (count : Nat) (s : ScraperState) (hl : 0 < l) :
    (run scrape (some l) urls count s).yielded.length + count ≤ max l count := by
  induction urls generalizing count s with
  | nil => simp [run, Nat.le_max_right]
  | cons url rest ih =>
    by_cases hlim : limitReached (some l) count = true
    · simp only [run, hlim, eq_self_iff_true, if_true, List.length_nil]
      have := Nat.le_max_right l count
      omega
    · rw [Bool.not_eq_true] at hlim
      have hcl : count < l := by
        rcases Nat.lt_or_ge count l with h | h
        · exact h
        · exfalso
          have ht : limitReached (some l) count = true := by
            simp [limitReached, Nat.pos_iff_ne_zero.mp hl, h]
          rw [ht] at hlim
          exact absurd hlim (by decide)
      simp only [run, hlim, Bool.false_eq_true, if_false]
      by_cases hb : s.is_url_processed url = true
      · simp only [hb, eq_self_iff_true, if_true]
        exact ih count s.mark_url_skipped
      · rw [Bool.not_eq_true] at hb
        simp only [hb, Bool.false_eq_true, if_false]
        cases scrape url with
        | item it =>
          by_cases hv : it.is_valid = true
          · simp only [hv, eq_self_iff_true, if_true]
            have h1 := ih (count + 1) (s.mark_url_processed url true none)
            have h2 : max l (count + 1) = l := Nat.max_eq_left hcl
            have h3 : max l count = l := Nat.max_eq_left (Nat.le_of_lt hcl)
            simp only [List.length_cons]
            omega
          · simp only [Bool.not_eq_true] at hv
            simp only [hv, Bool.false_eq_true, if_false]
            exact ih count _
        | noItem => exact ih count _
        | exn msg => exact ih count _

/-- **C10.** `run` called with `limit=0` behaves exactly as if no limit
had been given (the guard `if limit and count >= limit` tests the
truthiness of `limit` first), while a positive limit `l` bounds the
number of yielded items by `l`. -/
theorem run_limit_zero_ignored (scrape : String → ScrapeOutcome)
    (urls : List String) (s : ScraperState) (l : Nat) (hl : 0 < l) :
    run scrape (some 0) urls 0 s = run scrape none urls 0 s ∧
    (run scrape (some l) urls 0 s).yielded.length ≤ l := by
  refine ⟨run_limit_zero_aux scrape urls 0 s, ?_⟩
  have := run_limit_bound_aux scrape l urls 0 s hl
  simpa using this

/-- Witness for C10 at concrete inputs. -/
theorem run_limit_zero_ignored_witness :
    (0 : Nat) < 1 ∧
    (run (fun u => .item { source_url := u }) (some 0) ["a", "b"] 0
        { scraper_name := "t" } =
      run (fun u => .item { source_url := u }) none ["a", "b"] 0
        { scraper_name := "t" }) ∧
    (run (fun u => .item { source_url := u }) (some 1) ["a", "b"] 0
        { scraper_name := "t" }).yielded.length ≤ 1 := by
  have h := run_limit_zero_ignored (fun u => .item { source_url := u })
    ["a", "b"] { scraper_name := "t" } 1 (by decide)
  exact ⟨by decide, h.1, h.2⟩

/-! ## `chunking.py`: paragraph segmentation

The marker pattern in the source is
`PARA_MARKER_RE = re.compile(r"^\s*(\[\d+\]|(\d+)|\\d+\.)\s+")`.
As written, its three alternatives match a bracketed digit run `[12]`,
a *bare* digit run `12`, and a literal backslash followed by a run of
the letter d and a dot (the raw string `\\d+\.` escapes the backslash
itself).  The embedding below reproduces exactly this behaviour. -/

/-- The Python `\s` character class and `str.strip()` whitespace, over
ASCII text (`[ \t\n\v\f\r]`). -/
def pySpace (c : Char) : Bool :=
  c = ' ' || c = '\t' || c = '\n' || c = '\x0b' || c = '\x0c' || c = '\r'

/-- Group 1 of `PARA_MARKER_RE` matched at the start of `line` (Python
`re.match`), or `none` when the pattern does not match.  The leading
`\s*` is deterministic (no alternative starts with whitespace), and the
three alternatives are discriminated by their first character. -/
def paraMarkerGroup (line : List Char) : Option (List Char) :=
  let rest := line.dropWhile pySpace
  match rest with
  | '[' :: t =>
      let ds := t.takeWhile Char.isDigit
      if ds.isEmpty then none
      else
        match t.drop ds.length with
        | ']' :: c :: _ => if pySpace c then some ('[' :: (ds ++ [']'])) else none
        | _ => none
  | c :: _ =>
      if c.isDigit then
        let ds := rest.takeWhile Char.isDigit
        match rest.drop ds.length with
        | c2 :: _ => if pySpace c2 then some ds else none
        | [] => none
      else if c = '\\' then
        let t := rest.drop 1
        let ds := t.takeWhile (fun x => x = 'd')
        if ds.isEmpty then none
        else
          match t.drop ds.length with
          | '.' :: c2 :: _ => if pySpace c2 then some ('\\' :: (ds ++ ['.'])) else none
          | _ => none
      else none
  | [] => none

/-- Truthiness of `PARA_MARKER_RE.match(line)`. -/
def paraMarkerMatch (line : List Char) : Bool :=
  (paraMarkerGroup line).isSome

/-- Python `text.replace("\r\n", "\n")`, scanning left to right. -/
def replaceCRLF : List Char → List Char
  | [] => []
  | '\r' :: '\n' :: rest => '\n' :: replaceCRLF rest
  | c :: rest => c :: replaceCRLF rest

/-- Python `str.split(sep)` for a single-character separator: splits at
every occurrence and keeps empty pieces. -/
def splitOnChar (sep : Char) : List Char → List (List Char)
  | [] => [[]]
  | c :: rest =>
      let r := splitOnChar sep rest
      if c = sep then [] :: r
      else
        match r with
        | h :: t => (c :: h) :: t
        | [] => [[c]]

/-- Python `str.strip()` over ASCII whitespace. -/
def pyStrip (s : List Char) : List Char :=
  ((s.dropWhile pySpace).reverse.dropWhile pySpace).reverse

/-- The flush step of `_split_into_paragraphs`:
`" ".join(part.strip() for part in current if part.strip())`. -/
def joinStripped (current : List (List Char)) : List Char :=
  List.intercalate [' '] ((current.map pyStrip).filter (fun p => !p.isEmpty))

/-- The line loop of `_split_into_paragraphs`: `paras` and `current` are
the Python locals, threaded in order.  A blank line always flushes; a
marker line flushes only when `current` is non-empty; every non-blank
line is then appended to `current`. -/
def splitLoop : List (List Char) → List (List Char) → List (List Char) →
    List (List Char)
  | [], paras, current =>
      paras ++ (if current.isEmpty then [] else [joinStripped current])
  | line :: lines, paras, current =>
      if (pyStrip line).isEmpty then
        splitLoop lines
          (paras ++ (if current.isEmpty then [] else [joinStripped current])) []
      else if paraMarkerMatch line && !current.isEmpty then
        splitLoop lines (paras ++ [joinStripped current]) [line]
      else
        splitLoop lines paras (current ++ [line])

/-- `_split_into_paragraphs` from `chunking.py`: normalise line endings,
split into lines, run the accumulation loop, and drop empty paragraphs. -/
def splitIntoParagraphs (text : String) : List String :=
  let normalized := (replaceCRLF text.data).map (fun c => if c = '\r' then '\n' else c)
  let lines := splitOnChar '\n' normalized
  ((splitLoop lines [] []).filter (fun p => !p.isEmpty)).map (fun cs => String.mk cs)

/-- Python `str.strip(chars)` for an explicit character set. -/
def stripSet (cs : List Char) (s : List Char) : List Char :=
  ((s.dropWhile (fun c => cs.contains c)).reverse.dropWhile
    (fun c => cs.contains c)).reverse

/-- `_guess_paragraph_number` from `chunking.py`: match the marker
pattern, strip the characters of the set `[]().` from both ends of
group 1, and parse an integer (any non-digit makes `int()` raise, which
the source turns into `None`). -/
def guessParagraphNumber (para : String) : Option Nat :=
  match paraMarkerGroup para.data with
  | none => none
  | some g =>
      let raw := stripSet ['[', ']', '(', ')', '.'] g
      if !raw.isEmpty && raw.all Char.isDigit then
        some (raw.foldl (fun n c => n * 10 + (c.toNat - '0'.toNat)) 0)
      else none

/-! ## `chunking.py`: grouping paragraphs into chunks -/

/-- The inner `while` of `_group_paragraphs_into_chunks`, indexed by
explicit fuel so that the recursion is structural (and hence evaluates
inside the kernel).  `takeChunk` below pins the fuel to the number of
paragraphs left, which is an upper bound on the iterations, so the
fuel-0 base case is never reached. -/
def takeChunkFuel (paras : List String) (maxChars : Nat) :
    Nat → Nat → Nat → List String × Nat
  | 0, i, _ => ([], i)
  | fuel + 1, i, len =>
      if h : i < paras.length then
        let p := paras.get ⟨i, h⟩
        if len + p.length ≤ maxChars then
          let r := takeChunkFuel paras maxChars fuel (i + 1) (len + p.length)
          (p :: r.1, r.2)
        else ([], i)
      else ([], i)

/-- The inner `while` of `_group_paragraphs_into_chunks`: starting at
index `i` with `len` characters already accumulated, greedily append
whole paragraphs while the budget allows; returns the accumulated group
and the index where the loop stopped. -/
def takeChunk (paras : List String) (maxChars i len : Nat) :
    List String × Nat :=
  takeChunkFuel paras maxChars (paras.length - i) i len

theorem takeChunk_cont (paras : List String) (maxChars start len : Nat)
    (hs : start < paras.length)
    (hfit : len + (paras.get ⟨start, hs⟩).length ≤ maxChars) :
    takeChunk paras maxChars start len =
      ((paras.get ⟨start, hs⟩) ::
          (takeChunk paras maxChars (start + 1)
            (len + (paras.get ⟨start, hs⟩).length)).1,
        (takeChunk paras maxChars (start + 1)
          (len + (paras.get ⟨start, hs⟩).length)).2) := by
  unfold takeChunk
  rw [show paras.length - start = (paras.length - (start + 1)) + 1 from by omega]
  rw [takeChunkFuel, dif_pos hs, if_pos hfit]

theorem takeChunk_stop (paras : List String) (maxChars start len : Nat)
    (hs : start < paras.length)
    (hfit : ¬ len + (paras.get ⟨start, hs⟩).length ≤ maxChars) :
    takeChunk paras maxChars start len = ([], start) := by
  unfold takeChunk
  rw [show paras.length - start = (paras.length - (start + 1)) + 1 from by omega]
  rw [takeChunkFuel, dif_pos hs, if_neg hfit]

theorem takeChunk_out (paras : List String) (maxChars start len : Nat)
    (hs : ¬ start < paras.length) :
    takeChunk paras maxChars start len = ([], start) := by
  unfold takeChunk
  rw [show paras.length - start = 0 from by omega]
  rfl

theorem takeChunk_snd_ge (paras : List String) (maxChars : Nat) :
    ∀ (i len : Nat), i ≤ (takeChunk paras maxChars i len).2 := by
  have key : ∀ (n i len : Nat), paras.length - i ≤ n →
      i ≤ (takeChunk paras maxChars i len).2 := by
    intro n
    induction n with
    | zero =>
      intro i len hn
      by_cases h : i < paras.length
      · omega
      · rw [takeChunk_out paras maxChars i len h]
    | succ n ih =>
      intro i len hn
      by_cases h : i < paras.length
      · by_cases hfit : len + (paras.get ⟨i, h⟩).length ≤ maxChars
        · rw [takeChunk_cont paras maxChars i len h hfit]
          have := ih (i + 1) (len + (paras.get ⟨i, h⟩).length) (by omega)
          exact Nat.le_trans (Nat.le_succ i) this
        · rw [takeChunk_stop paras maxChars i len h hfit]
      · rw [takeChunk_out paras maxChars i len h]
  intro i len
  exact key (paras.length - i) i len (Nat.le_refl _)

/-- The greedy chunk together with the fallback for an oversized single
paragraph: the final values of `current` and `i` for one iteration of
the outer loop of `_group_paragraphs_into_chunks`. -/
def chunkStep (paras : List String) (maxChars : Nat) (start : Nat)
    (hs : start < paras.length) : List String × Nat :=
  let t := takeChunk paras maxChars start 0
  if t.1.isEmpty then ([paras.get ⟨start, hs⟩], start + 1) else t

theorem chunkStep_snd_gt (paras : List String) (maxChars : Nat) (start : Nat)
    (hs : start < paras.length) :
    start < (chunkStep paras maxChars start hs).2 := by
  unfold chunkStep
  by_cases he : (takeChunk paras maxChars start 0).1.isEmpty = true
  · rw [if_pos he]
    exact Nat.lt_succ_self start
  · rw [if_neg he]
    by_cases hfit : 0 + (paras.get ⟨start, hs⟩).length ≤ maxChars
    · rw [takeChunk_cont paras maxChars start 0 hs hfit]
      have h2 := takeChunk_snd_ge paras maxChars (start + 1)
        (0 + (paras.get ⟨start, hs⟩).length)
      exact Nat.lt_of_lt_of_le (Nat.lt_succ_self start) h2
    · exfalso
      apply he
      rw [takeChunk_stop paras maxChars start 0 hs hfit]
      rfl

/-- The next value of `start` after a chunk `[start, e)`:
`start = max(i - overlap_paras, 0) if i - overlap_paras > start else i`
(the `max` is redundant since the branch condition already forces the
difference positive; with truncated subtraction the Lean condition
agrees with the Python one on negatives). -/
def nextStart (overlap start e : Nat) : Nat :=
  if start < e - overlap then e - overlap else e

/-- The outer `while` of `_group_paragraphs_into_chunks`, instrumented:
each produced chunk is returned together with its start index and the
index `i` at which the inner loop stopped.  Fuel-indexed structural
recursion, as for `takeChunkFuel`; since `start` strictly increases,
the paragraphs left bound the iterations. -/
def groupLoopFuel (paras : List String) (maxChars overlap : Nat) :
    Nat → Nat → List (List String × Nat × Nat)
  | 0, _ => []
  | fuel + 1, start =>
      if hs : start < paras.length then
        ((chunkStep paras maxChars start hs).1, start,
          (chunkStep paras maxChars start hs).2) ::
          (if paras.length ≤ (chunkStep paras maxChars start hs).2 then []
           else groupLoopFuel paras maxChars overlap fuel
             (nextStart overlap start (chunkStep paras maxChars start hs).2))
      else []

/-- The outer loop of `_group_paragraphs_into_chunks`, with canonical fuel. -/
def groupLoop (paras : List String) (maxChars overlap start : Nat) :
    List (List String × Nat × Nat) :=
  groupLoopFuel paras maxChars overlap (paras.length - start) start

theorem groupLoopFuel_eq (paras : List String) (maxChars overlap : Nat) :
    ∀ (fuel start : Nat), paras.length - start ≤ fuel →
      groupLoopFuel paras maxChars overlap fuel start =
        groupLoopFuel paras maxChars overlap (paras.length - start) start := by
  intro fuel
  induction fuel using Nat.strong_induction_on with
  | _ fuel ih =>
    intro start hn
    cases fuel with
    | zero =>
      rw [show paras.length - start = 0 from by omega]
    | succ f =>
      by_cases hs : start < paras.length
      · rw [show paras.length - start = (paras.length - start - 1) + 1 from by omega]
        rw [groupLoopFuel, groupLoopFuel, dif_pos hs, dif_pos hs]
        by_cases hend : paras.length ≤ (chunkStep paras maxChars start hs).2
        · rw [if_pos hend, if_pos hend]
        · rw [if_neg hend, if_neg hend]
          have hgt := chunkStep_snd_gt paras maxChars start hs
          have hnext : start < nextStart overlap start (chunkStep paras maxChars start hs).2 := by
            unfold nextStart
            split <;> omega
          congr 1
          rw [ih f (by omega) _ (by omega),
            ih (paras.length - start - 1) (by omega) _ (by omega)]
      · rw [show paras.length - start = 0 from by omega]
        rw [groupLoopFuel, groupLoopFuel, dif_neg hs]

theorem groupLoop_out (paras : List String) (maxChars overlap start : Nat)
    (hs : ¬ start < paras.length) :
    groupLoop paras maxChars overlap start = [] := by
  unfold groupLoop
  rw [show paras.length - start = 0 from by omega]
  rfl

theorem groupLoop_in (paras : List String) (maxChars overlap start : Nat)
    (hs : start < paras.length) :
    groupLoop paras maxChars overlap start =
      ((chunkStep paras maxChars start hs).1, start,
        (chunkStep paras maxChars start hs).2) ::
        (if paras.length ≤ (chunkStep paras maxChars start hs).2 then []
         else groupLoop paras maxChars overlap
           (nextStart overlap start (chunkStep paras maxChars start hs).2)) := by
  unfold groupLoop
  rw [show paras.length - start = (paras.length - start - 1) + 1 from by omega]
  rw [groupLoopFuel, dif_pos hs]
  by_cases hend : paras.length ≤ (chunkStep paras maxChars start hs).2
  · rw [if_pos hend, if_pos hend]
  · rw [if_neg hend, if_neg hend]
    have hgt := chunkStep_snd_gt paras maxChars start hs
    have hnext : start < nextStart overlap start (chunkStep paras maxChars start hs).2 := by
      unfold nextStart
      split <;> omega
    congr 1
    exact groupLoopFuel_eq paras maxChars overlap (paras.length - start - 1) _ (by omega)

/-- `_group_paragraphs_into_chunks` from `chunking.py` (the chunks of the
instrumented loop). -/
def groupParagraphsIntoChunks (paras : List String) (maxChars overlap : Nat) :
    List (List String) :=
  (groupLoop paras maxChars overlap 0).map (fun x => x.1)

/-! ## `chunking.py`: the two chunkers -/

/-- The `Chunk` dataclass. -/
structure Chunk where
  doc_type : String
  doc_id : String
  chunk_index : Nat
  text : String
  chunk_type : String
  paragraph_numbers : Option (List Nat) := none
  section_path : Option String := none
  deriving Repr, DecidableEq

/-- `chunk_case_text` from `chunking.py` (defaults: `max_chars=2000`,
`overlap_paras=2`). -/
def chunk_case_text (case_id : String) (full_text : String) : List Chunk :=
  let paragraphs := splitIntoParagraphs full_text
  let para_chunks := groupParagraphsIntoChunks paragraphs 2000 2
  let total := para_chunks.length
  para_chunks.enum.map (fun ic =>
    let para_nums := ic.2.filterMap guessParagraphNumber
    { doc_type := "case"
      doc_id := case_id
      chunk_index := ic.1
      text := String.intercalate "\n" ic.2
      chunk_type :=
        if ic.1 = 0 then "facts"
        else if ic.1 = total - 1 then "order"
        else "reasoning"
      paragraph_numbers := if para_nums.isEmpty then none else some para_nums
      section_path := none })

/-- Python `text.split("\n\n")`: non-overlapping left-to-right splitting
on the two-character separator, keeping empty pieces. -/
def splitOnBlank : List Char → List (List Char)
  | [] => [[]]
  | '\n' :: '\n' :: rest => [] :: splitOnBlank rest
  | c :: rest =>
      match splitOnBlank rest with
      | h :: t => (c :: h) :: t
      | [] => [[c]]

/-- `chunk_legislation_section` from `chunking.py`: a single chunk for a
short section, a blank-line split grouped with `overlap_paras=1` for a
long one. -/
def chunk_legislation_section (section_id : String) (content : String)
    (section_path : Option String) : List Chunk :=
  let text := String.mk (pyStrip content.data)
  if text = "" then []
  else if text.length ≤ 2000 then
    [{ doc_type := "legislation"
       doc_id := section_id
       chunk_index := 0
       text := text
       chunk_type := "section_body"
       paragraph_numbers := none
       section_path := section_path }]
  else
    let paras := ((splitOnBlank text.data).filter
      (fun p => !(pyStrip p).isEmpty)).map (fun cs => String.mk cs)
    let para_chunks := groupParagraphsIntoChunks paras 2000 1
    para_chunks.enum.map (fun ic =>
      { doc_type := "legislation"
        doc_id := section_id
        chunk_index := ic.1
        text := String.intercalate "\n\n" ic.2
        chunk_type := "section_body"
        paragraph_numbers := none
        section_path := section_path })

/-! ## Helper lemmas on the grouping loop -/

theorem takeChunk_slice (paras : List String) (maxChars : Nat) :
    ∀ (i len : Nat), (takeChunk paras maxChars i len).1 =
      (paras.drop i).take ((takeChunk paras maxChars i len).2 - i) := by
  have key : ∀ (n i len : Nat), paras.length - i ≤ n →
      (takeChunk paras maxChars i len).1 =
        (paras.drop i).take ((takeChunk paras maxChars i len).2 - i) := by
    intro n
    induction n with
    | zero =>
      intro i len hn
      rw [takeChunk_out paras maxChars i len (by omega)]
      simp
    | succ n ih =>
      intro i len hn
      by_cases h : i < paras.length
      · by_cases hfit : len + (paras.get ⟨i, h⟩).length ≤ maxChars
        · rw [takeChunk_cont paras maxChars i len h hfit]
          have hge := takeChunk_snd_ge paras maxChars (i + 1)
            (len + (paras.get ⟨i, h⟩).length)
          have hdrop : paras.drop i = paras.get ⟨i, h⟩ :: paras.drop (i + 1) :=
            List.drop_eq_getElem_cons h
          show paras.get ⟨i, h⟩ :: (takeChunk paras maxChars (i + 1)
              (len + (paras.get ⟨i, h⟩).length)).1 =
            (paras.drop i).take ((takeChunk paras maxChars (i + 1)
              (len + (paras.get ⟨i, h⟩).length)).2 - i)
          rw [hdrop, show (takeChunk paras maxChars (i + 1)
              (len + (paras.get ⟨i, h⟩).length)).2 - i =
            ((takeChunk paras maxChars (i + 1)
              (len + (paras.get ⟨i, h⟩).length)).2 - (i + 1)) + 1 from by omega]
          rw [List.take_succ_cons]
          rw [ih (i + 1) (len + (paras.get ⟨i, h⟩).length) (by omega)]
        · rw [takeChunk_stop paras maxChars i len h hfit]
          simp
      · rw [takeChunk_out paras maxChars i len h]
        simp
  intro i len
  exact key (paras.length - i) i len (Nat.le_refl _)

theorem chunkStep_slice (paras : List String) (maxChars start : Nat)
    (hs : start < paras.length) :
    (chunkStep paras maxChars start hs).1 =
      (paras.drop start).take ((chunkStep paras maxChars start hs).2 - start) := by
  unfold chunkStep
  by_cases he : (takeChunk paras maxChars start 0).1.isEmpty = true
  · rw [if_pos he]
    have hdrop : paras.drop start = paras.get ⟨start, hs⟩ :: paras.drop (start + 1) :=
      List.drop_eq_getElem_cons hs
    show [paras.get ⟨start, hs⟩] = (paras.drop start).take (start + 1 - start)
    rw [hdrop, show start + 1 - start = 1 from by omega]
    rfl
  · rw [if_neg he]
    exact takeChunk_slice paras maxChars start 0

theorem groupLoop_slice (paras : List String) (maxChars overlap : Nat) :
    ∀ (start : Nat), ∀ x ∈ groupLoop paras maxChars overlap start,
      x.1 = (paras.drop x.2.1).take (x.2.2 - x.2.1) := by
  have key : ∀ (n start : Nat), paras.length - start ≤ n →
      ∀ x ∈ groupLoop paras maxChars overlap start,
        x.1 = (paras.drop x.2.1).take (x.2.2 - x.2.1) := by
    intro n
    induction n with
    | zero =>
      intro start hn x hx
      rw [groupLoop_out paras maxChars overlap start (by omega)] at hx
      exact absurd hx (List.not_mem_nil x)
    | succ n ih =>
      intro start hn x hx
      by_cases hs : start < paras.length
      · rw [groupLoop_in paras maxChars overlap start hs] at hx
        rcases List.mem_cons.mp hx with rfl | hx'
        · exact chunkStep_slice paras maxChars start hs
        · by_cases hend : paras.length ≤ (chunkStep paras maxChars start hs).2
          · rw [if_pos hend] at hx'
            exact absurd hx' (List.not_mem_nil x)
          · rw [if_neg hend] at hx'
            have hgt := chunkStep_snd_gt paras maxChars start hs
            have hnext : start <
                nextStart overlap start (chunkStep paras maxChars start hs).2 := by
              unfold nextStart
              split <;> omega
            exact ih _ (by omega) x hx'
      · rw [groupLoop_out paras maxChars overlap start hs] at hx
        exact absurd hx (List.not_mem_nil x)
  intro start
  exact key (paras.length - start) start (Nat.le_refl _)

theorem groupLoop_head_start (paras : List String) (maxChars overlap start : Nat) :
    ∀ b ∈ ((groupLoop paras maxChars overlap start).map (fun x => x.2)).head?,
      b.1 = start := by
  by_cases hs : start < paras.length
  · rw [groupLoop_in paras maxChars overlap start hs]
    intro b hb
    rw [List.map_cons] at hb
    simp only [List.head?_cons, Option.mem_def, Option.some.injEq] at hb
    rw [← hb]
  · rw [groupLoop_out paras maxChars overlap start hs]
    intro b hb
    simp at hb

theorem groupLoop_chain (paras : List String) (maxChars overlap : Nat) :
    ∀ (start : Nat),
      ((groupLoop paras maxChars overlap start).map (fun x => x.2)).Chain'
        (fun b₁ b₂ => b₂.1 = nextStart overlap b₁.1 b₁.2) := by
  have key : ∀ (n start : Nat), paras.length - start ≤ n →
      ((groupLoop paras maxChars overlap start).map (fun x => x.2)).Chain'
        (fun b₁ b₂ => b₂.1 = nextStart overlap b₁.1 b₁.2) := by
    intro n
    induction n with
    | zero =>
      intro start hn
      rw [groupLoop_out paras maxChars overlap start (by omega)]
      exact List.chain'_nil
    | succ n ih =>
      intro start hn
      by_cases hs : start < paras.length
      · rw [groupLoop_in paras maxChars overlap start hs]
        by_cases hend : paras.length ≤ (chunkStep paras maxChars start hs).2
        · rw [if_pos hend]
          simp
        · rw [if_neg hend]
          rw [List.map_cons, List.chain'_cons']
          have hgt := chunkStep_snd_gt paras maxChars start hs
          have hnext : start <
              nextStart overlap start (chunkStep paras maxChars start hs).2 := by
            unfold nextStart
            split <;> omega
          constructor
          · intro b hb
            exact groupLoop_head_start paras maxChars overlap _ b hb
          · exact ih _ (by omega)
      · rw [groupLoop_out paras maxChars overlap start hs]
        exact List.chain'_nil
  intro start
  exact key (paras.length - start) start (Nat.le_refl _)

/-! ## Claim C3 — chunk indices are contiguous from 0 -/

theorem map_enum_chunk_index {α : Type} (l : List α) (f : Nat × α → Chunk)
    (hf : ∀ p, (f p).chunk_index = p.1) :
    (l.enum.map f).map Chunk.chunk_index = List.range l.length := by
  rw [List.map_map]
  have hcomp : (Chunk.chunk_index ∘ f) = Prod.fst := funext fun p => hf p
  rw [hcomp, List.enum_map_fst]

/-- **C3.** For every document, the chunk lists produced by
`chunk_case_text` and (for a section) by `chunk_legislation_section`
carry `chunk_index` values that are exactly `0, 1, ..., n-1` in
generation order. -/
theorem chunk_indices_contiguous (case_id full_text section_id content : String)
    (section_path : Option String) :
    (chunk_case_text case_id full_text).map Chunk.chunk_index =
      List.range (chunk_case_text case_id full_text).length ∧
    (chunk_legislation_section section_id content section_path).map Chunk.chunk_index =
      List.range (chunk_legislation_section section_id content section_path).length := by
  constructor
  · simp only [chunk_case_text]
    rw [List.length_map, List.enum_length]
    exact map_enum_chunk_index _ _ (fun p => rfl)
  · simp only [chunk_legislation_section]
    split
    · rfl
    · split
      · rfl
      · rw [List.length_map, List.enum_length]
        exact map_enum_chunk_index _ _ (fun p => rfl)

/-! ## Claim C4 — overlap between successive chunks -/

/-- Ten paragraphs of 10 characters each; a 30-character budget fits
exactly 3. -/
def c4Paras : List String := (List.range 10).map (fun i => "paragraph" ++ toString i)

/-- **C4.** For every paragraph list: consecutive chunks `[s₁, e₁)` and
`[s₂, e₂)` of the grouping loop satisfy
`s₂ = if s₁ < e₁ - overlap then e₁ - overlap else e₁` — the next chunk
starts `overlap` paragraphs before the previous end unless that would
not advance past the previous start, in which case it starts exactly at
the previous end — and every chunk is precisely the paragraph slice of
its recorded range.  For ten paragraphs with `maxChars` fitting exactly
three and `overlap = 1`, each chunk after the first begins with the last
paragraph of its predecessor. -/
theorem chunk_overlap_correct :
    (∀ (paras : List String) (maxChars overlap : Nat),
      ((groupLoop paras maxChars overlap 0).map (fun x => x.2)).Chain'
        (fun b₁ b₂ => b₂.1 = nextStart overlap b₁.1 b₁.2) ∧
      ∀ x ∈ groupLoop paras maxChars overlap 0,
        x.1 = (paras.drop x.2.1).take (x.2.2 - x.2.1)) ∧
    ((groupParagraphsIntoChunks c4Paras 30 1).map (fun c => c.head?)).tail =
      ((groupParagraphsIntoChunks c4Paras 30 1).map (fun c => c.getLast?)).dropLast := by
  refine ⟨fun paras maxChars overlap =>
    ⟨groupLoop_chain paras maxChars overlap 0, groupLoop_slice paras maxChars overlap 0⟩, ?_⟩
  decide

/-- Witness for C4 at a concrete chunk of the concrete paragraph list. -/
theorem chunk_overlap_correct_witness :
    (["paragraph0", "paragraph1", "paragraph2"], (0 : Nat), (3 : Nat)) ∈
      groupLoop c4Paras 30 1 0 ∧
    (["paragraph0", "paragraph1", "paragraph2"], (0 : Nat), (3 : Nat)).1 =
      (c4Paras.drop 0).take (3 - 0) := by
  refine ⟨by decide, ?_⟩
  exact (chunk_overlap_correct.1 c4Paras 30 1).2 _ (by decide)

/-! ## Claim C5 — the paragraph-marker pattern (code bug) -/

/-- **C5 (code bug).** The claim — matching the module docstring and the
repository's own tests (`test_chunking.py`, `test_parenthesis_format`
and `test_dot_format`) — says lines of the forms `[12]`, `(12)` and
`12.` are paragraph markers.  The regex as written,
`^\s*(\[\d+\]|(\d+)|\\d+\.)\s+`, recognises `[12]` and a *bare* digit
run but neither `(12)` nor `12.`: its second alternative lacks the
escaped parentheses and its third escapes the backslash instead of the
digit class.  This theorem evaluates the embedded code at the failing
inputs: the two marker forms the tests demand yield no paragraph number
and do not split, while the bracketed form does. -/
theorem paragraph_marker_code_bug :
    guessParagraphNumber "(1) Some text" = none ∧
    guessParagraphNumber "1. Some text" = none ∧
    guessParagraphNumber "[1] Some text" = some 1 ∧
    splitIntoParagraphs "Intro text\n(2) Second paragraph" =
      ["Intro text (2) Second paragraph"] ∧
    splitIntoParagraphs "Intro text\n2. Second paragraph" =
      ["Intro text 2. Second paragraph"] ∧
    splitIntoParagraphs "Intro text\n[2] Second paragraph" =
      ["Intro text", "[2] Second paragraph"] := by
  decide

/-! ## `citation_parser.py`: the four citation families

Each compiled pattern is embedded as an executable matcher on
`List Char`, reproducing the Python regex behaviour at a given position
(including `re.IGNORECASE`, greedy quantifiers, and the left-to-right
alternation with backtracking into the alternative list when the rest
of the pattern fails).  `findIter` reproduces `finditer`: scan left to
right, emit non-overlapping matches, resume after each match. -/

/-- The value of a run of decimal digits (`int()` on a digit string). -/
def digitsToNat (ds : List Char) : Nat :=
  ds.foldl (fun n c => n * 10 + (c.toNat - '0'.toNat)) 0

/-- Case-insensitive literal match (`re.IGNORECASE` over ASCII): returns
the consumed text in its original case together with the rest. -/
def icLit : List Char → List Char → Option (List Char × List Char)
  | [], s => some ([], s)
  | _ :: _, [] => none
  | p :: ps, c :: cs =>
      if p.toLower = c.toLower then
        match icLit ps cs with
        | some (consumed, rest) => some (c :: consumed, rest)
        | none => none
      else none

/-- A parsed legal citation (`ParsedCitation` in `citation_parser.py`). -/
structure ParsedCitation where
  full_citation : String
  year : Nat
  court : String
  number : Nat
  jurisdiction : String := "HK"
  volume : Option Nat := none
  deriving Repr, DecidableEq

/-- Try each court alternative in order, each followed by the rest
pattern `\s*(\d+)`; the first alternative for which the rest also
matches wins (regex alternation with backtracking).  Returns the
consumed court text, the consumed whitespace, the digit run, and the
rest of the input. -/
def tryCourtNum (u : List Char) :
    List String → Option (List Char × List Char × List Char × List Char)
  | [] => none
  | alt :: alts =>
      match icLit alt.data u with
      | some (altC, u1) =>
          let ws := u1.takeWhile pySpace
          let u2 := u1.drop ws.length
          let ds := u2.takeWhile Char.isDigit
          if ds.isEmpty then tryCourtNum u alts
          else some (altC, ws, ds, u2.drop ds.length)
      | none => tryCourtNum u alts

/-- The court alternatives of `HK_CITATION_PATTERN`, in source order
(each is prefixed by the shared literal `HK`). -/
def hkCourtAlts : List String :=
  ["CFA", "CA", "CFI", "DC", "FC", "LT", "LAB", "SCT", "EC", "MC", "HKEC"]

/-- `HK_CITATION_PATTERN` =
`\[(\d{4})\]\s*(HK(?:CFA|CA|CFI|DC|FC|LT|LAB|SCT|EC|MC|HKEC))\s*(\d+)`,
`re.IGNORECASE`, matched at the start of `s`. -/
def hkMatch (s : List Char) : Option (ParsedCitation × List Char) :=
  match s with
  | '[' :: t =>
      if 4 ≤ (t.takeWhile Char.isDigit).length then
        match t.drop 4 with
        | ']' :: u =>
            let ws := u.takeWhile pySpace
            match icLit "HK".data (u.drop ws.length) with
            | some (hk, u1) =>
                match tryCourtNum u1 hkCourtAlts with
                | some (altC, ws2, ds, rest) =>
                    some ({ full_citation := String.mk
                              ('[' :: (t.take 4 ++ ']' :: (ws ++ hk ++ altC ++ ws2 ++ ds)))
                            year := digitsToNat (t.take 4)
                            court := String.mk ((hk ++ altC).map Char.toUpper)
                            number := digitsToNat ds
                            jurisdiction := "HK"
                            volume := none }, rest)
                | none => none
            | none => none
        | _ => none
      else none
  | _ => none

/-- The report alternatives of `HK_LAW_REPORTS_PATTERN`, in source order. -/
def lawReportAlts : List String := ["HKLR", "HKLRD", "HKCFAR", "HKC"]

/-- `HK_LAW_REPORTS_PATTERN` =
`\[(\d{4})\]\s*(\d+)\s*(HKLR|HKLRD|HKCFAR|HKC)\s*(\d+)`, `re.IGNORECASE`. -/
def hkLawReportsMatch (s : List Char) : Option (ParsedCitation × List Char) :=
  match s with
  | '[' :: t =>
      if 4 ≤ (t.takeWhile Char.isDigit).length then
        match t.drop 4 with
        | ']' :: u =>
            let ws := u.takeWhile pySpace
            let u1 := u.drop ws.length
            let vol := u1.takeWhile Char.isDigit
            if vol.isEmpty then none
            else
              let u2 := u1.drop vol.length
              let ws1 := u2.takeWhile pySpace
              match tryCourtNum (u2.drop ws1.length) lawReportAlts with
              | some (altC, ws2, ds, rest) =>
                  some ({ full_citation := String.mk
                            ('[' :: (t.take 4 ++ ']' ::
                              (ws ++ vol ++ ws1 ++ altC ++ ws2 ++ ds)))
                          year := digitsToNat (t.take 4)
                          court := String.mk (altC.map Char.toUpper)
                          number := digitsToNat ds
                          jurisdiction := "HK"
                          volume := some (digitsToNat vol) }, rest)
              | none => none
        | _ => none
      else none
  | _ => none

/-- The `All\s*ER` alternative of the UK pattern. -/
def allER (u : List Char) : Option (List Char × List Char) :=
  match icLit "All".data u with
  | some (c1, r1) =>
      let ws := r1.takeWhile pySpace
      match icLit "ER".data (r1.drop ws.length) with
      | some (c2, r2) => some (c1 ++ ws ++ c2, r2)
      | none => none
  | none => none

/-- The `EWCA\s*(?:Civ|Crim)?` alternative of the UK pattern: the inner
group is a greedy optional, and the `\s*` stays consumed even when it
matches empty. -/
def ewca (u : List Char) : Option (List Char × List Char) :=
  match icLit "EWCA".data u with
  | some (c1, r1) =>
      let ws := r1.takeWhile pySpace
      let u1 := r1.drop ws.length
      match icLit "Civ".data u1 with
      | some (c2, r2) => some (c1 ++ ws ++ c2, r2)
      | none =>
          match icLit "Crim".data u1 with
          | some (c2, r2) => some (c1 ++ ws ++ c2, r2)
          | none => some (c1 ++ ws, u1)
  | none => none

/-- The UK court alternation
`(AC|QB|WLR|All\s*ER|UKSC|UKHL|UKPC|EWCA\s*(?:Civ|Crim)?|EWHC)`.  The
rest of the UK pattern (`\s*(\d+)?`) never fails, so the first
alternative matching by prefix wins. -/
def ukCourt (u : List Char) : Option (List Char × List Char) :=
  icLit "AC".data u <|> icLit "QB".data u <|> icLit "WLR".data u <|>
    allER u <|> icLit "UKSC".data u <|> icLit "UKHL".data u <|>
    icLit "UKPC".data u <|> ewca u <|> icLit "EWHC".data u

/-- `UK_CITATION_PATTERN` =
`\[(\d{4})\]\s*(?:(\d+)\s+)?(AC|QB|WLR|All\s*ER|UKSC|UKHL|UKPC|EWCA\s*(?:Civ|Crim)?|EWHC)\s*(\d+)?`,
`re.IGNORECASE`.  The optional volume group only participates when a
digit run followed by whitespace is present; if the court then fails,
the regex backtracking falls back to the empty optional, where the
court would have to match at a digit — every court alternative starts
with a letter, so that branch always fails and is omitted.  A missing
trailing number yields `number = 0`, as in the source. -/
def ukMatch (s : List Char) : Option (ParsedCitation × List Char) :=
  match s with
  | '[' :: t =>
      if 4 ≤ (t.takeWhile Char.isDigit).length then
        match t.drop 4 with
        | ']' :: u =>
            let ws := u.takeWhile pySpace
            let u1 := u.drop ws.length
            let vol := u1.takeWhile Char.isDigit
            let volWS := (u1.drop vol.length).takeWhile pySpace
            let volOk := !vol.isEmpty && !volWS.isEmpty
            let u2 := if volOk then (u1.drop vol.length).drop volWS.length else u1
            match ukCourt u2 with
            | some (courtC, u3) =>
                let ws2 := u3.takeWhile pySpace
                let ds := (u3.drop ws2.length).takeWhile Char.isDigit
                some ({ full_citation := String.mk
                          ('[' :: (t.take 4 ++ ']' :: (ws ++
                            (if volOk then vol ++ volWS else []) ++
                            courtC ++ ws2 ++ ds)))
                        year := digitsToNat (t.take 4)
                        court := String.mk
                          ((courtC.map Char.toUpper).filter (fun c => !(c == ' ')))
                        number := digitsToNat ds
                        jurisdiction := "UK"
                        volume := if volOk then some (digitsToNat vol) else none },
                  (u3.drop ws2.length).drop ds.length)
            | none => none
        | _ => none
      else none
  | _ => none

/-- The court alternatives of `AU_CITATION_PATTERN`, in source order. -/
def auCourtAlts : List String :=
  ["HCA", "FCAFC", "FCA", "NSWCA", "NSWSC", "VSCA", "VSC", "QCA", "QSC"]

/-- `AU_CITATION_PATTERN` =
`\[(\d{4})\]\s*(HCA|FCAFC|FCA|NSWCA|NSWSC|VSCA|VSC|QCA|QSC)\s*(\d+)`,
`re.IGNORECASE`. -/
def auMatch (s : List Char) : Option (ParsedCitation × List Char) :=
  match s with
  | '[' :: t =>
      if 4 ≤ (t.takeWhile Char.isDigit).length then
        match t.drop 4 with
        | ']' :: u =>
            let ws := u.takeWhile pySpace
            match tryCourtNum (u.drop ws.length) auCourtAlts with
            | some (altC, ws2, ds, rest) =>
                some ({ full_citation := String.mk
                          ('[' :: (t.take 4 ++ ']' :: (ws ++ altC ++ ws2 ++ ds)))
                        year := digitsToNat (t.take 4)
                        court := String.mk (altC.map Char.toUpper)
                        number := digitsToNat ds
                        jurisdiction := "AU"
                        volume := none }, rest)
            | none => none
        | _ => none
      else none
  | _ => none

/-- `re.finditer`: scan left to right, at each position try the matcher,
on a match resume after its end, otherwise advance one character.  The
fuel is the input length; every step consumes at least one character
(all four patterns start with a mandatory literal), so the fuel never
runs out early. -/
def scanFuel (m : List Char → Option (ParsedCitation × List Char)) :
    Nat → List Char → List ParsedCitation
  | 0, _ => []
  | fuel + 1, s =>
      match m s with
      | some (c, rest) => c :: scanFuel m fuel rest
      | none =>
          match s with
          | [] => []
          | _ :: t => scanFuel m fuel t

/-- All matches of a pattern in a text, in order. -/
def findIter (m : List Char → Option (ParsedCitation × List Char))
    (s : List Char) : List ParsedCitation :=
  scanFuel m s.length s

/-- The accumulation loop shared by the four `parse_*_citations`
functions: a match is appended only when its exact `full_citation`
string has not been seen before. -/
def dedupLoop : List ParsedCitation → List String → List ParsedCitation
  | [], _ => []
  | c :: rest, seen =>
      if c.full_citation ∈ seen then dedupLoop rest seen
      else c :: dedupLoop rest (c.full_citation :: seen)

/-- `parse_hk_citations` from `citation_parser.py`. -/
def parse_hk_citations (text : String) : List ParsedCitation :=
  dedupLoop (findIter hkMatch text.data) []

/-- `parse_hk_law_reports` from `citation_parser.py`. -/
def parse_hk_law_reports (text : String) : List ParsedCitation :=
  dedupLoop (findIter hkLawReportsMatch text.data) []

/-- `parse_uk_citations` from `citation_parser.py`. -/
def parse_uk_citations (text : String) : List ParsedCitation :=
  dedupLoop (findIter ukMatch text.data) []

/-- `parse_au_citations` from `citation_parser.py`. -/
def parse_au_citations (text : String) : List ParsedCitation :=
  dedupLoop (findIter auMatch text.data) []

/-- `extract_all_citations` from `citation_parser.py`: concatenate the
four family lists. -/
def extract_all_citations (text : String) : List ParsedCitation :=
  parse_hk_citations text ++ parse_hk_law_reports text ++
    parse_uk_citations text ++ parse_au_citations text

/-! ## Claim C6 — first-seen deduplication by exact citation string -/

/-- Specification-side first-seen deduplication of a key sequence. -/
def specFirstSeen : List String → List String → List String
  | [], _ => []
  | k :: rest, seen =>
      if k ∈ seen then specFirstSeen rest seen
      else k :: specFirstSeen rest (k :: seen)

theorem dedupLoop_map_full (l : List ParsedCitation) :
    ∀ seen, (dedupLoop l seen).map ParsedCitation.full_citation =
      specFirstSeen (l.map ParsedCitation.full_citation) seen := by
  induction l with
  | nil => intro seen; rfl
  | cons c rest ih =>
      intro seen
      simp only [dedupLoop, List.map_cons, specFirstSeen]
      by_cases h : c.full_citation ∈ seen
      · rw [if_pos h, if_pos h, ih]
      · rw [if_neg h, if_neg h, List.map_cons, ih]

theorem specFirstSeen_nodup : ∀ (l seen : List String),
    (∀ k ∈ specFirstSeen l seen, k ∉ seen) ∧ (specFirstSeen l seen).Nodup := by
  intro l
  induction l with
  | nil =>
    intro seen
    exact ⟨fun k hk => absurd hk (List.not_mem_nil k), List.nodup_nil⟩
  | cons c rest ih =>
      intro seen
      simp only [specFirstSeen]
      by_cases h : c ∈ seen
      · rw [if_pos h]
        exact ih seen
      · rw [if_neg h]
        obtain ⟨h1, h2⟩ := ih (c :: seen)
        refine ⟨?_, ?_⟩
        · intro k hk hks
          rcases List.mem_cons.mp hk with rfl | hk'
          · exact h hks
          · exact h1 k hk' (List.mem_cons_of_mem c hks)
        · refine List.Nodup.cons ?_ h2
          intro hc
          exact h1 c hc (List.mem_cons_self c seen)

theorem dedupLoop_sublist : ∀ (l : List ParsedCitation) (seen : List String),
    (dedupLoop l seen).Sublist l := by
  intro l
  induction l with
  | nil => intro seen; exact List.Sublist.refl []
  | cons c rest ih =>
      intro seen
      simp only [dedupLoop]
      by_cases h : c.full_citation ∈ seen
      · rw [if_pos h]
        exact List.Sublist.cons c (ih seen)
      · rw [if_neg h]
        exact List.Sublist.cons₂ c (ih _)

/-- **C6.** Citation extraction builds each family list in first-seen
order deduplicated by exact `full_citation` string: the HK-neutral list
is exactly the first-seen deduplication of the raw match sequence, an
order-preserving sublist of it with duplicate-free citation strings (and
likewise for the other three families); a citation string occurring
twice in the text therefore appears once.  On the concrete input
`"[2024] HKCFA 15 ... [2024] HKCFA 15"`, `extract_all_citations`
returns exactly one `ParsedCitation`, with full citation
`"[2024] HKCFA 15"`, year 2024, court `"HKCFA"`, and number 15. -/
theorem citation_dedup_first_seen :
    (∀ text : String,
      (parse_hk_citations text).map ParsedCitation.full_citation =
        specFirstSeen
          ((findIter hkMatch text.data).map ParsedCitation.full_citation) [] ∧
      ((parse_hk_citations text).map ParsedCitation.full_citation).Nodup ∧
      (parse_hk_citations text).Sublist (findIter hkMatch text.data) ∧
      ((parse_hk_law_reports text).map ParsedCitation.full_citation).Nodup ∧
      ((parse_uk_citations text).map ParsedCitation.full_citation).Nodup ∧
      ((parse_au_citations text).map ParsedCitation.full_citation).Nodup) ∧
    extract_all_citations "[2024] HKCFA 15 ... [2024] HKCFA 15" =
      [{ full_citation := "[2024] HKCFA 15", year := 2024, court := "HKCFA",
         number := 15, jurisdiction := "HK", volume := none }] := by
  constructor
  · intro text
    unfold parse_hk_citations parse_hk_law_reports parse_uk_citations parse_au_citations
    refine ⟨dedupLoop_map_full _ [], ?_, dedupLoop_sublist _ [], ?_, ?_, ?_⟩ <;>
      (rw [dedupLoop_map_full]; exact (specFirstSeen_nodup _ []).2)
  · decide

/-! ## `judiciary/parsers.py`: language detection (claim C9) -/

/-- The CJK character class of the source pattern `[一-鿿]`. -/
def isCJK (c : Char) : Bool := 0x4e00 ≤ c.toNat && c.toNat ≤ 0x9fff

/-- Python `"zh" in lang.lower()` on the already-lowercased text. -/
def containsZh : List Char → Bool
  | 'z' :: 'h' :: _ => true
  | _ :: rest => containsZh rest
  | [] => false

/-- The HTML-attribute step of language detection (`parsers.py` lines
122-125): if the `<html>` tag is present its `lang` attribute (default
`"en"`) decides, otherwise the dataclass default `"en"` stays. -/
def htmlLangOf : Option String → String
  | some lang => if containsZh (lang.data.map Char.toLower) then "zh" else "en"
  | none => "en"

/-- The language-detection fragment of `parse_judgment_html`
(`parsers.py` lines 122-132).  The character-ratio override divides the
CJK count of the first 1000 characters by the constant 1000 — not by
the text length when the text is shorter — and compares against 0.3
(modelled exactly over ℚ; the float comparison decides identically for
every integer count). -/
def detectLanguage : Option String → Option String → String
  | htmlLang, some txt =>
      if (!(txt == "")) && (txt.data.take 1000).any isCJK then
        if ((txt.data.take 1000).countP isCJK : ℚ) / 1000 > 3 / 10 then "zh"
        else htmlLangOf htmlLang
      else htmlLangOf htmlLang
  | htmlLang, none => htmlLangOf htmlLang

/-- A 500-character body text: 200 CJK characters then 300 ASCII. -/
def c9Text : String := String.mk (List.replicate 200 '中' ++ List.replicate 300 'a')

set_option maxRecDepth 8192 in
/-- **C9 counterexample.** The claim normalises the CJK fraction by
`N = min(1000, len(text))`; the code always divides by 1000.  For a
500-character body with 200 CJK characters the claim's fraction is
`200/500 = 0.4 > 0.3`, so the claim requires classification `"zh"`, yet
the code computes `200/1000 = 0.2` and keeps the declared language
`"en"`. -/
theorem language_ratio_counterexample :
    (((c9Text.data.take (min 1000 c9Text.length)).countP isCJK : ℚ) /
        ((min 1000 c9Text.length : Nat) : ℚ) > 3 / 10) ∧
    c9Text ≠ "" ∧
    detectLanguage (some "en") (some c9Text) = "en" := by
  have hc : (c9Text.data.take (min 1000 c9Text.length)).countP isCJK = 200 := by
    decide
  have hc2 : (c9Text.data.take 1000).countP isCJK = 200 := by decide
  have hl : c9Text.length = 500 := by decide
  refine ⟨?_, by decide, ?_⟩
  · rw [hc, hl, show min 1000 500 = 500 from by norm_num]
    norm_num
  · simp only [detectLanguage]
    have hguard : ((!(c9Text == "")) && (c9Text.data.take 1000).any isCJK) = true := by
      decide
    rw [hguard, if_pos rfl, hc2, if_neg (by norm_num)]
    decide

/-- **C9 (amended).** Whenever the CJK-character count of the first 1000
characters of the body text, divided by the constant 1000, exceeds 0.3
(that is, the count exceeds 300), the record's language is classified
`"zh"` regardless of the HTML-level language attribute. -/
theorem language_cjk_override (htmlLang : Option String) (txt : String)
    (h : ((txt.data.take 1000).countP isCJK : ℚ) / 1000 > 3 / 10) :
    detectLanguage htmlLang (some txt) = "zh" := by
  have hcount : 300 < (txt.data.take 1000).countP isCJK := by
    by_contra hcon
    push_neg at hcon
    have hle : ((txt.data.take 1000).countP isCJK : ℚ) ≤ 300 := by
      exact_mod_cast hcon
    have h2 : ((txt.data.take 1000).countP isCJK : ℚ) / 1000 ≤ 3 / 10 := by
      rw [div_le_iff₀ (by norm_num : (0:ℚ) < 1000)]
      linarith
    linarith
  have hany : (txt.data.take 1000).any isCJK = true := by
    rw [List.any_eq_true]
    have hpos : 0 < (txt.data.take 1000).countP isCJK := by omega
    exact List.countP_pos_iff.mp hpos
  have hne : (txt == "") = false := by
    rw [beq_eq_false_iff_ne]
    intro he
    rw [he] at hcount
    have hz : (("" : String).data.take 1000).countP isCJK = 0 := by decide
    omega
  simp only [detectLanguage]
  rw [hne, hany]
  simp [h]

/-- A 301-character all-CJK body text. -/
def c9ZhText : String := String.mk (List.replicate 301 '中')

set_option maxRecDepth 8192 in
/-- Witness for C9's amended theorem at a concrete input. -/
theorem language_cjk_override_witness :
    (((c9ZhText.data.take 1000).countP isCJK : ℚ) / 1000 > 3 / 10) ∧
    detectLanguage (some "en") (some c9ZhText) = "zh" := by
  have hc : ((c9ZhText.data.take 1000).countP isCJK) = 301 := by decide
  have hr : ((c9ZhText.data.take 1000).countP isCJK : ℚ) / 1000 > 3 / 10 := by
    rw [hc]
    norm_num
  exact ⟨hr, language_cjk_override (some "en") c9ZhText hr⟩

end LegalAI
